import Mathlib

/-!
Verification of the audio-visual data pipeline in `src/dataset.py`
(repository SajayR/Aud-vis).

The Python source is shallowly embedded below:

* `extract_audio_from_video` — the audio decoder with its
  `try/except/finally` control flow made explicit (the PyAV calls are
  abstracted into an `AudioOutcome` describing what the library did);
* `load_and_preprocess_video`'s forward-scan loop after the backward
  seek (`scanLoop` / `chooseClosestFrame`), frame timestamps abstracted
  into the list of `pts` values the decoder yields in order;
* `VideoBatchSampler.__iter__` / `__len__` (`iterLoop`, `samplerIter`,
  `samplerLen`);
* `AudioVisualDataset.__init__`'s file-name parsing (`datasetInit`) and
  `__getitem__` (`getitem`);
* `collate_fn`.

Machine integers are modelled as `ℤ`/`ℕ` (Python ints are unbounded),
audio sample values as `ℚ` (the float arithmetic in scope is exact:
division of 16-bit integers by 32768), and exceptions as explicit
`PyResult`/`Except` values.
-/

namespace AudVis

/-- Result of running a piece of Python code: either a value or a raised
exception, identified by a short description. -/
inductive PyResult (α : Type) where
  | val (a : α)
  | exn (msg : String)
deriving DecidableEq, Repr

/-- A diagnostic line printed by the pipeline.  `audioFail path` is the
`print` in `extract_audio_from_video`'s `except` clause; `itemError path
msg` is the `print` in `AudioVisualDataset.__getitem__`'s `except`
clause. -/
inductive LogLine where
  | audioFail (path : String)
  | itemError (path : String) (msg : String)
deriving DecidableEq, Repr

/-! ### Audio decoder (`extract_audio_from_video`, dataset.py lines 24-48) -/

/-- What the PyAV library does when `extract_audio_from_video` runs:
either `av.open` itself raises (`openFail`), or the container opens but
the stream lookup / decode / resample raises (`decodeFail`), or decoding
succeeds and yields a list of audio frames, each a list of raw signed
16-bit samples (`success`). -/
inductive AudioOutcome where
  | openFail
  | decodeFail
  | success (frames : List (List ℤ))
deriving DecidableEq, Repr

/-- Value or exception produced by the `try` block of
`extract_audio_from_video` before `except`/`finally` run.  On success
the raw samples are concatenated and divided by 32768
(`samples.float() / 32768.0`); `np.concatenate` of an empty list raises
`ValueError`. -/
def audioTryResult (ao : AudioOutcome) : PyResult (List ℚ) :=
  match ao with
  | .openFail => .exn "av.open failed"
  | .decodeFail => .exn "audio decode failed"
  | .success frames =>
    if frames.isEmpty then .exn "ValueError: need at least one array to concatenate"
    else .val (frames.flatten.map fun n => (n : ℚ) / 32768)

/-- Whether the local variable `container` was bound (i.e. `av.open`
returned) when the `finally` block of `extract_audio_from_video` runs. -/
def containerOpened (ao : AudioOutcome) : Bool :=
  match ao with
  | .openFail => false
  | _ => true

/-- Full observable behaviour of one `extract_audio_from_video` call:
its value-or-exception, the log lines it printed, and whether a
container was opened and closed. -/
structure AudioResult where
  result : PyResult (List ℚ)
  logs : List LogLine
  opened : Bool
  closed : Bool
deriving Repr

/-- Embedding of `extract_audio_from_video` (dataset.py lines 24-48).
Python control flow, made explicit:

* the bare `except:` catches whatever the `try` block raised, prints
  `Failed to load audio from {path}` and prepares to return
  `torch.zeros(16331)`;
* the `finally:` block then runs `if container: container.close()`.
  When `av.open` itself raised, the local `container` was never bound,
  so this lookup raises `NameError`, which replaces the pending
  `return`; when the container was bound it is closed (a second,
  idempotent close on the success path). -/
def extract_audio_from_video (ao : AudioOutcome) (path : String) : AudioResult :=
  let tryR := audioTryResult ao
  let afterExcept : PyResult (List ℚ) × List LogLine :=
    match tryR with
    | .exn _ => (.val (List.replicate 16331 0), [.audioFail path])
    | .val w => (.val w, [])
  if containerOpened ao then
    { result := afterExcept.1, logs := afterExcept.2, opened := true, closed := true }
  else
    { result := .exn "NameError", logs := afterExcept.2, opened := false, closed := false }

/-! ### Video frame sampler scan loop (`load_and_preprocess_video`, lines 63-77) -/

/-- Embedding of the forward-decode loop of `load_and_preprocess_video`:
walk the decoded frames (identified by their `pts`, in decode order),
keep the frame with minimum `|pts - chosen_pts|` in `best` (paired with
that minimum difference; `none` plays the role of
`min_pts_diff = inf`), and stop as soon as
`frame.pts > chosen_pts + limit` — in the source, `limit` is
`original_fps / 10`.  The update happens before the overshoot test,
exactly as in the source. -/
def scanLoop (target : ℤ) (limit : ℚ) : List ℤ → Option (ℤ × ℤ) → Option ℤ
  | [], best => best.map (·.1)
  | pts :: rest, best =>
    let d := (pts - target).natAbs
    let best' : Option (ℤ × ℤ) :=
      match best with
      | none => some (pts, (d : ℤ))
      | some (p, m) => if (d : ℤ) < m then some (pts, (d : ℤ)) else some (p, m)
    if (pts : ℚ) > (target : ℚ) + limit then best'.map (·.1)
    else scanLoop target limit rest best'

/-- Embedding of lines 63-77 of `load_and_preprocess_video`: the scan
with the source's stopping bound `original_fps / 10` (a pure number,
compared against a difference of `pts` values, i.e. time-base ticks),
followed by the `if closest_frame is None: raise ValueError` check. -/
def chooseClosestFrame (original_fps : ℚ) (chosen_pts : ℤ) (framePts : List ℤ) :
    Except String ℤ :=
  match scanLoop chosen_pts (original_fps / 10) framePts none with
  | some p => .ok p
  | none => .error "Failed to find appropriate frame"

/-- The stopping rule as the specification words it: stop once a frame's
timestamp overshoots the target by more than one-tenth of a *second*.
An overshoot of `(pts - chosen_pts)` ticks lasts
`(pts - chosen_pts) * time_base` seconds, so the bound in tick units is
`1 / (10 * time_base)`.  Written for comparison with
`chooseClosestFrame`, whose bound is `original_fps / 10` ticks. -/
def chooseClosestFrameSpecStop (time_base : ℚ) (chosen_pts : ℤ) (framePts : List ℤ) :
    Except String ℤ :=
  match scanLoop chosen_pts (1 / (10 * time_base)) framePts none with
  | some p => .ok p
  | none => .error "Failed to find appropriate frame"

/-! ### File-name parsing (`AudioVisualDataset.__init__`, lines 115-129) -/

/-- Python `str.split(sep)` for a one-character separator: every maximal
(possibly empty) run between separators is a token, so the result is
always non-empty. -/
def splitOnChar (sep : Char) : List Char → List (List Char)
  | [] => [[]]
  | c :: rest =>
    let r := splitOnChar sep rest
    if c = sep then [] :: r
    else (c :: r.headI) :: r.tail

/-- Numeric value of a digit string (most significant first). -/
def digitsVal (cs : List Char) : ℕ :=
  cs.foldl (fun a c => a * 10 + (c.toNat - 48)) 0

/-- Parse a non-empty all-digit character run. -/
def parseDigits (cs : List Char) : Option ℕ :=
  if cs.isEmpty then none
  else if cs.all (·.isDigit) then some (digitsVal cs) else none

/-- Python `int(s)` on the tokens that name-splitting produces (an
optional sign followed by digits; the surrounding-whitespace and
digit-group-underscore allowances of `int` cannot occur in a token cut
at every underscore).  `none` models the `ValueError` raised on a
non-numeric token. -/
def pyIntChars : List Char → Option ℤ
  | '-' :: rest => (parseDigits rest).map fun n => -(n : ℤ)
  | '+' :: rest => (parseDigits rest).map fun n => (n : ℤ)
  | cs => (parseDigits cs).map fun n => (n : ℤ)

/-- Tokens of a file stem: `stem.split('_')`. -/
def stemTokens (stem : String) : List (List Char) :=
  splitOnChar '_' stem.data

/-- Embedding of `int(file.stem.split('_')[0])`: `none` when `int`
raises `ValueError`. -/
def parseVid (stem : String) : Option ℤ :=
  (stemTokens stem).head?.bind pyIntChars

/-- Embedding of `int(file.stem.split('_')[1])`: `none` when the stem
has no underscore (`IndexError`) or the token is non-numeric
(`ValueError`). -/
def parseSeg (stem : String) : Option ℤ :=
  ((stemTokens stem).get? 1).bind pyIntChars

/-- Embedding of the parsing work of `AudioVisualDataset.__init__`
(lines 121-128) over the sorted file stems: `int(file.stem.split('_')[0])`
is evaluated for each file in order and the first failure raises
`ValueError` out of the constructor (there is no `try` around it); on
success the list of `vid_num`s is produced.  The returned error names
the offending stem. -/
def corpusVidNums : List String → Except String (List ℤ)
  | [] => .ok []
  | stem :: rest =>
    match parseVid stem with
    | none => .error stem
    | some v =>
      match corpusVidNums rest with
      | .error e => .error e
      | .ok vs => .ok (v :: vs)

/-- Embedding of `AudioVisualDataset.__init__` on a directory whose
sorted media-file stems are `stems`: parse every stem (first failure is
fatal), then evaluate `max(self.vid_nums)`, which raises `ValueError`
on an empty corpus. -/
def datasetInit (stems : List String) : Except String (List ℤ) :=
  match corpusVidNums stems with
  | .error e => .error e
  | .ok vs =>
    if vs.isEmpty then .error "ValueError: max() arg is an empty sequence" else .ok vs

/-! ### Sample loader (`AudioVisualDataset.__getitem__`, lines 134-155) -/

/-- A video frame tensor of shape 3x224x224 (channel, row, column). -/
def Frame : Type := Fin 3 → Fin 224 → Fin 224 → ℚ

/-- The all-zero frame, `torch.zeros(3, 224, 224)`. -/
def zeroFrame : Frame := fun _ _ _ => 0

/-- What `load_and_preprocess_video` did for one call: raised, or
returned a preprocessed frame tensor. -/
inductive VideoOutcome where
  | fail (msg : String)
  | ok (frame : Frame)

/-- The dictionary `AudioVisualDataset.__getitem__` returns for one
corpus index. -/
structure Sample where
  video_path : String
  video_frames : Frame
  audio : List ℚ
  vid_num : ℤ
  segment_num : ℤ

/-- The fallback record built in `__getitem__`'s `except` clause:
all-zero tensors of the nominal shapes and `-1` identifiers. -/
def sentinelSample (path : String) : Sample :=
  { video_path := path
    video_frames := zeroFrame
    audio := List.replicate 16331 0
    vid_num := -1
    segment_num := -1 }

/-- Value-or-exception of the `try` block of `__getitem__`: run the
audio extractor (whose own result may be the `NameError` escaping its
`finally`), then the video frame sampler, then build the result dict,
whose `vid_num`/`segment_num` entries re-parse the stem and may raise. -/
def getitemTry (path stem : String) (ao : AudioOutcome) (vo : VideoOutcome) :
    PyResult Sample × List LogLine :=
  let ar := extract_audio_from_video ao path
  match ar.result with
  | .exn e => (.exn e, ar.logs)
  | .val audio =>
    match vo with
    | .fail m => (.exn m, ar.logs)
    | .ok frame =>
      match parseVid stem, parseSeg stem with
      | some v, some sg =>
        (.val { video_path := path, video_frames := frame, audio := audio,
                vid_num := v, segment_num := sg }, ar.logs)
      | _, _ => (.exn "ValueError", ar.logs)

/-- Embedding of `AudioVisualDataset.__getitem__` (lines 134-155): the
`except Exception` clause turns any raise from the `try` block into a
printed `Error processing {path}: ...` line and the sentinel record. -/
def getitem (path stem : String) (ao : AudioOutcome) (vo : VideoOutcome) :
    Sample × List LogLine :=
  match getitemTry path stem ao vo with
  | (.val s, logs) => (s, logs)
  | (.exn e, logs) => (sentinelSample path, logs ++ [.itemError path e])

/-! ### Constrained batch sampler (`VideoBatchSampler`, lines 86-113) -/

/-- State carried by `VideoBatchSampler`: the per-index source ids and
the configured batch size. -/
structure VideoBatchSampler where
  vid_nums : List ℤ
  batch_size : ℕ

/-- Source id of a flat index, `self.vid_nums[idx]` (every index the
sampler looks up is in range; `0` is an unused default). -/
def vidAt (vids : List ℤ) (idx : ℕ) : ℤ :=
  vids.getD idx 0

/-- Embedding of the loop body of `VideoBatchSampler.__iter__` (lines
99-110): walk the remaining shuffled indices with the current batch and
the set of source ids already placed in it (a list with set
membership); skip an index whose id is present, otherwise append it,
emitting and resetting when the batch reaches `B`; finally emit a
non-empty trailing batch. -/
def iterLoop (vidOf : ℕ → ℤ) (B : ℕ) : List ℕ → List ℕ → List ℤ → List (List ℕ)
  | [], cur, _used => if cur = [] then [] else [cur]
  | idx :: rest, cur, used =>
    if vidOf idx ∈ used then
      iterLoop vidOf B rest cur used
    else if (cur ++ [idx]).length = B then
      (cur ++ [idx]) :: iterLoop vidOf B rest [] []
    else
      iterLoop vidOf B rest (cur ++ [idx]) (vidOf idx :: used)

/-- Embedding of `VideoBatchSampler.__iter__` for one epoch, as a
function of the shuffled permutation `perm` that `random.shuffle`
produced (the randomness is the only non-determinism; every property
below is proved for arbitrary `perm`). -/
def samplerIter (s : VideoBatchSampler) (perm : List ℕ) : List (List ℕ) :=
  iterLoop (vidAt s.vid_nums) s.batch_size perm [] []

/-- Embedding of `VideoBatchSampler.__len__` (lines 112-113):
`total_samples // batch_size`, where Python integer division by zero
raises (`none`). -/
def samplerLen (s : VideoBatchSampler) : Option ℕ :=
  if s.batch_size = 0 then none else some (s.vid_nums.length / s.batch_size)

/-! ### Specification-side sampler (spec section 4.5)

A second formulation of the constrained batch sampler, written from the
specification's wording: a single left-to-right walk of the
permutation, a fold carrying the emitted batches, the current batch and
a `Finset` of the source ids placed in it; append an index iff its id
is new, emit and reset both on reaching `B`, and emit any non-empty
trailing batch once at the end.  Compared against `samplerIter`. -/

/-- State of the specification-side walk. -/
structure SamplerSpecState where
  emitted : List (List ℕ)
  current : List ℕ
  used : Finset ℤ

/-- One step of the specification-side walk over one index. -/
def samplerSpecStep (vidOf : ℕ → ℤ) (B : ℕ) (st : SamplerSpecState) (idx : ℕ) :
    SamplerSpecState :=
  if vidOf idx ∈ st.used then st
  else
    let cur := st.current ++ [idx]
    if cur.length = B then ⟨st.emitted ++ [cur], [], ∅⟩
    else ⟨st.emitted, cur, insert (vidOf idx) st.used⟩

/-- The specification-side sampler: fold the walk over the permutation
and append the non-empty trailing batch. -/
def samplerSpecRun (s : VideoBatchSampler) (perm : List ℕ) : List (List ℕ) :=
  let r := perm.foldl (samplerSpecStep (vidAt s.vid_nums) s.batch_size) ⟨[], [], ∅⟩
  r.emitted ++ if r.current = [] then [] else [r.current]

/-! ### Batch assembler (`collate_fn`, lines 157-171) -/

/-- The dictionary `collate_fn` returns. -/
structure CollatedBatch where
  frame : List Frame
  audio : List (List ℚ)
  vid_nums : List ℤ
  segment_nums : List ℤ
  video_paths : List String

/-- Length of the longest audio waveform in a batch,
`max(item['audio'].shape[0] for item in batch)` (computed as a running
fold; equal to the Python `max` on the non-empty batches `collate_fn`
accepts). -/
def maxAudioLen (batch : List Sample) : ℕ :=
  (batch.map fun s => s.audio.length).foldl max 0

/-- Right-pad a waveform with zeros to length `n`: the effect of writing
`audio_padded[i, :audio_len] = item['audio']` into a zero-initialised
row of length `n`. -/
def padTo (n : ℕ) (xs : List ℚ) : List ℚ :=
  xs ++ List.replicate (n - xs.length) 0

/-- Embedding of `collate_fn` (lines 157-171).  On an empty batch both
`torch.stack([])` and `max()` over an empty generator raise, hence
`none`. -/
def collate_fn : List Sample → Option CollatedBatch
  | [] => none
  | s :: rest =>
    let batch := s :: rest
    some
      { frame := batch.map fun it => it.video_frames
        audio := batch.map fun it => padTo (maxAudioLen batch) it.audio
        vid_nums := batch.map fun it => it.vid_num
        segment_nums := batch.map fun it => it.segment_num
        video_paths := batch.map fun it => it.video_path }

/-! ## Lemmas about the sampler loop -/

/-- Concatenating the emitted batches gives back a subsequence of the
walked indices (prefixed by the current batch): the loop examines each
index once and never re-inserts a skipped one. -/
lemma iterLoop_flatten_sublist (vidOf : ℕ → ℤ) (B : ℕ) :
    ∀ (idxs cur : List ℕ) (used : List ℤ),
      (iterLoop vidOf B idxs cur used).flatten.Sublist (cur ++ idxs) := by
  intro idxs
  induction idxs with
  | nil =>
    intro cur used
    by_cases h : cur = [] <;> simp [iterLoop, h]
  | cons idx rest ih =>
    intro cur used
    by_cases h1 : vidOf idx ∈ used
    · simp only [iterLoop, if_pos h1]
      exact (ih cur used).trans
        ((List.sublist_cons_self idx rest).append_left cur)
    · by_cases h2 : (cur ++ [idx]).length = B
      · simp only [iterLoop, if_neg h1, if_pos h2, List.flatten_cons]
        have step := (List.Sublist.refl (cur ++ [idx])).append (ih [] [])
        simpa [List.append_assoc] using step
      · simp only [iterLoop, if_neg h1, if_neg h2]
        have step := ih (cur ++ [idx]) (vidOf idx :: used)
        simpa [List.append_assoc] using step

/-- Invariant preservation: if the source ids of the current batch are
pairwise distinct and all recorded in `used`, then every batch the loop
emits has pairwise distinct source ids. -/
lemma iterLoop_batch_nodup (vidOf : ℕ → ℤ) (B : ℕ) :
    ∀ (idxs cur : List ℕ) (used : List ℤ),
      (cur.map vidOf).Nodup → (∀ i ∈ cur, vidOf i ∈ used) →
      ∀ b ∈ iterLoop vidOf B idxs cur used, (b.map vidOf).Nodup := by
  intro idxs
  induction idxs with
  | nil =>
    intro cur used hnd _hinv b hb
    by_cases h : cur = []
    · simp [iterLoop, h] at hb
    · simp only [iterLoop, if_neg h, List.mem_singleton] at hb
      exact hb ▸ hnd
  | cons idx rest ih =>
    intro cur used hnd hinv b hb
    by_cases h1 : vidOf idx ∈ used
    · simp only [iterLoop, if_pos h1] at hb
      exact ih cur used hnd hinv b hb
    · have hfresh : vidOf idx ∉ cur.map vidOf := by
        intro hmem
        obtain ⟨i, hi, hvi⟩ := List.mem_map.mp hmem
        exact h1 (hvi ▸ hinv i hi)
      have hnd' : ((cur ++ [idx]).map vidOf).Nodup := by
        simp only [List.map_append, List.map_singleton]
        simp [List.nodup_append, hnd, hfresh]
      by_cases h2 : (cur ++ [idx]).length = B
      · simp only [iterLoop, if_neg h1, if_pos h2, List.mem_cons] at hb
        rcases hb with rfl | hb
        · exact hnd'
        · exact ih [] [] (by simp) (by simp) b hb
      · simp only [iterLoop, if_neg h1, if_neg h2] at hb
        refine ih (cur ++ [idx]) (vidOf idx :: used) hnd' ?_ b hb
        intro i hi
        rcases List.mem_append.mp hi with hi | hi
        · exact List.mem_cons_of_mem _ (hinv i hi)
        · simp only [List.mem_singleton] at hi
          simp [hi]

/-- The loop never emits an empty batch. -/
lemma iterLoop_ne_nil (vidOf : ℕ → ℤ) (B : ℕ) :
    ∀ (idxs cur : List ℕ) (used : List ℤ),
      ∀ b ∈ iterLoop vidOf B idxs cur used, b ≠ [] := by
  intro idxs
  induction idxs with
  | nil =>
    intro cur used b hb
    by_cases h : cur = []
    · simp [iterLoop, h] at hb
    · simp only [iterLoop, if_neg h, List.mem_singleton] at hb
      exact hb ▸ h
  | cons idx rest ih =>
    intro cur used b hb
    by_cases h1 : vidOf idx ∈ used
    · simp only [iterLoop, if_pos h1] at hb
      exact ih cur used b hb
    · by_cases h2 : (cur ++ [idx]).length = B
      · simp only [iterLoop, if_neg h1, if_pos h2, List.mem_cons] at hb
        rcases hb with rfl | hb
        · simp
        · exact ih [] [] b hb
      · simp only [iterLoop, if_neg h1, if_neg h2] at hb
        exact ih (cur ++ [idx]) (vidOf idx :: used) b hb

/-- Every emitted batch except possibly the last has exactly the
configured size: only the trailing batch can be smaller. -/
lemma iterLoop_dropLast_length (vidOf : ℕ → ℤ) (B : ℕ) :
    ∀ (idxs cur : List ℕ) (used : List ℤ),
      ∀ b ∈ (iterLoop vidOf B idxs cur used).dropLast, b.length = B := by
  intro idxs
  induction idxs with
  | nil =>
    intro cur used b hb
    by_cases h : cur = [] <;> simp [iterLoop, h] at hb
  | cons idx rest ih =>
    intro cur used b hb
    by_cases h1 : vidOf idx ∈ used
    · simp only [iterLoop, if_pos h1] at hb
      exact ih cur used b hb
    · by_cases h2 : (cur ++ [idx]).length = B
      · simp only [iterLoop, if_neg h1, if_pos h2] at hb
        rcases ht : iterLoop vidOf B rest [] [] with _ | ⟨x, xs⟩
        · rw [ht] at hb
          simp at hb
        · rw [ht] at hb
          simp only [List.dropLast, List.mem_cons] at hb
          rcases hb with rfl | hb
          · exact h2
          · have := ih [] [] b
            rw [ht] at this
            exact this (by simpa [List.dropLast] using hb)
      · simp only [iterLoop, if_neg h1, if_neg h2] at hb
        exact ih (cur ++ [idx]) (vidOf idx :: used) b hb

/-- With a positive batch size and a current batch still strictly below
it, every emitted batch has at most the configured size. -/
lemma iterLoop_length_le (vidOf : ℕ → ℤ) (B : ℕ) (hB : 0 < B) :
    ∀ (idxs cur : List ℕ) (used : List ℤ), cur.length < B →
      ∀ b ∈ iterLoop vidOf B idxs cur used, b.length ≤ B := by
  intro idxs
  induction idxs with
  | nil =>
    intro cur used hcur b hb
    by_cases h : cur = []
    · simp [iterLoop, h] at hb
    · simp only [iterLoop, if_neg h, List.mem_singleton] at hb
      exact hb ▸ Nat.le_of_lt hcur
  | cons idx rest ih =>
    intro cur used hcur b hb
    by_cases h1 : vidOf idx ∈ used
    · simp only [iterLoop, if_pos h1] at hb
      exact ih cur used hcur b hb
    · by_cases h2 : (cur ++ [idx]).length = B
      · simp only [iterLoop, if_neg h1, if_pos h2, List.mem_cons] at hb
        rcases hb with rfl | hb
        · exact Nat.le_of_eq h2
        · exact ih [] [] (by simpa using hB) b hb
      · simp only [iterLoop, if_neg h1, if_neg h2] at hb
        have hlen : (cur ++ [idx]).length < B := by
          have : (cur ++ [idx]).length = cur.length + 1 := by simp
          omega
        exact ih (cur ++ [idx]) (vidOf idx :: used) hlen b hb

/-- Folding the specification-side step from a state with already
emitted batches prepends those batches to the result of folding from an
empty emission list (current batch and used set do not depend on the
emission list). -/
lemma specFoldl_shift (vidOf : ℕ → ℤ) (B : ℕ) :
    ∀ (idxs : List ℕ) (es : List (List ℕ)) (cur : List ℕ) (u : Finset ℤ),
      (idxs.foldl (samplerSpecStep vidOf B) ⟨es, cur, u⟩).emitted
          = es ++ (idxs.foldl (samplerSpecStep vidOf B) ⟨[], cur, u⟩).emitted ∧
      (idxs.foldl (samplerSpecStep vidOf B) ⟨es, cur, u⟩).current
          = (idxs.foldl (samplerSpecStep vidOf B) ⟨[], cur, u⟩).current := by
  intro idxs
  induction idxs with
  | nil => intro es cur u; simp
  | cons i rest ih =>
    intro es cur u
    by_cases h1 : vidOf i ∈ u
    · simpa only [List.foldl_cons, samplerSpecStep, if_pos h1] using ih es cur u
    · by_cases h2 : (cur ++ [i]).length = B
      · simp only [List.foldl_cons, samplerSpecStep, if_neg h1, if_pos h2, List.nil_append]
        obtain ⟨he1, hc1⟩ := ih (es ++ [cur ++ [i]]) [] (∅ : Finset ℤ)
        obtain ⟨he2, hc2⟩ := ih ([cur ++ [i]]) [] (∅ : Finset ℤ)
        constructor
        · rw [he1, he2, List.append_assoc]
        · rw [hc1, hc2]
      · simpa only [List.foldl_cons, samplerSpecStep, if_neg h1, if_neg h2]
          using ih es (cur ++ [i]) (insert (vidOf i) u)

/-- The source's `__iter__` loop computes exactly what the
specification-side fold computes, for any alignment of the list-backed
and `Finset`-backed id sets. -/
lemma iterLoop_eq_specFold (vidOf : ℕ → ℤ) (B : ℕ) :
    ∀ (idxs cur : List ℕ) (usedL : List ℤ) (usedF : Finset ℤ),
      (∀ v : ℤ, v ∈ usedL ↔ v ∈ usedF) →
      iterLoop vidOf B idxs cur usedL =
        (idxs.foldl (samplerSpecStep vidOf B) ⟨[], cur, usedF⟩).emitted ++
          (if (idxs.foldl (samplerSpecStep vidOf B) ⟨[], cur, usedF⟩).current = []
           then [] else [(idxs.foldl (samplerSpecStep vidOf B) ⟨[], cur, usedF⟩).current]) := by
  intro idxs
  induction idxs with
  | nil =>
    intro cur usedL usedF _hiff
    by_cases h : cur = [] <;> simp [iterLoop, h]
  | cons i rest ih =>
    intro cur usedL usedF hiff
    by_cases h1 : vidOf i ∈ usedF
    · have h1L : vidOf i ∈ usedL := (hiff _).mpr h1
      simp only [iterLoop, if_pos h1L, List.foldl_cons, samplerSpecStep, if_pos h1]
      exact ih cur usedL usedF hiff
    · have h1L : vidOf i ∉ usedL := fun hc => h1 ((hiff _).mp hc)
      by_cases h2 : (cur ++ [i]).length = B
      · simp only [iterLoop, if_neg h1L, if_pos h2, List.foldl_cons, samplerSpecStep,
          if_neg h1, List.nil_append]
        obtain ⟨he, hc⟩ := specFoldl_shift vidOf B rest ([cur ++ [i]]) [] (∅ : Finset ℤ)
        rw [he, hc]
        have ihe := ih [] [] (∅ : Finset ℤ) (by simp)
        rw [ihe]
        simp
      · simp only [iterLoop, if_neg h1L, if_neg h2, List.foldl_cons, samplerSpecStep,
          if_neg h1]
        refine ih (cur ++ [i]) (vidOf i :: usedL) (insert (vidOf i) usedF) ?_
        intro v
        simp [hiff v, or_comm]

/-! ## Enumerating permutations

`random.shuffle` produces some permutation of `range(N)`.  To check a
property for *every* permutation of a small corpus by computation, we
enumerate them with a structurally recursive generator and show that it
reaches every list permutation-equivalent to the input. -/

/-- All ways of inserting `a` into a list. -/
def insertEverywhere (a : ℕ) : List ℕ → List (List ℕ)
  | [] => [[a]]
  | b :: bs => (a :: b :: bs) :: (insertEverywhere a bs).map (b :: ·)

/-- All permutations of a list, by repeated insertion. -/
def allPerms : List ℕ → List (List ℕ)
  | [] => [[]]
  | a :: as => (allPerms as).flatMap (insertEverywhere a)

/-- Inserting `a` at any split point is reachable by `insertEverywhere`. -/
lemma mem_insertEverywhere (a : ℕ) :
    ∀ (l₁ l₂ : List ℕ), l₁ ++ a :: l₂ ∈ insertEverywhere a (l₁ ++ l₂) := by
  intro l₁
  induction l₁ with
  | nil => intro l₂; cases l₂ <;> simp [insertEverywhere]
  | cons b bs ih =>
    intro l₂
    simp only [List.cons_append, insertEverywhere, List.mem_cons]
    right
    exact List.mem_map.mpr ⟨bs ++ a :: l₂, ih l₂, rfl⟩

/-- Completeness of the enumerator: every permutation of `l` appears in
`allPerms l`. -/
lemma mem_allPerms_of_perm : ∀ (l p : List ℕ), p.Perm l → p ∈ allPerms l := by
  intro l
  induction l with
  | nil => intro p hp; simp [allPerms, hp.eq_nil]
  | cons x xs ih =>
    intro p hp
    have hx : x ∈ p := hp.mem_iff.mpr (List.mem_cons_self x xs)
    obtain ⟨p₁, p₂, rfl⟩ := List.append_of_mem hx
    have h1 : p₁ ++ p₂ ∈ allPerms xs := by
      refine ih (p₁ ++ p₂) ?_
      have hmid : List.Perm (p₁ ++ x :: p₂) (x :: (p₁ ++ p₂)) := List.perm_middle
      exact (hmid.symm.trans hp).cons_inv
    simp only [allPerms, List.mem_flatMap]
    exact ⟨p₁ ++ p₂, h1, mem_insertEverywhere x p₁ p₂⟩

/-! ## Claims about the constrained batch sampler -/

/-- C1.  For every batch of indices emitted by `VideoBatchSampler.__iter__`
(run over any shuffled index order, any id list and any batch size), the
source ids the batch's indices map to are pairwise distinct: no two
indices in one emitted batch share a `source_id`.  In particular the
non-sentinel ids are pairwise distinct. -/
theorem batch_source_ids_nodup (vids : List ℤ) (B : ℕ) (perm : List ℕ)
    (b : List ℕ) (hb : b ∈ samplerIter ⟨vids, B⟩ perm) :
    (b.map (vidAt vids)).Nodup :=
  iterLoop_batch_nodup (vidAt vids) B perm [] [] (by simp) (by simp) b hb

/-- Witness for C1 at a concrete sampler run. -/
theorem batch_source_ids_nodup_witness :
    [0, 1] ∈ samplerIter ⟨[5, 7], 2⟩ [0, 1] ∧
    (([0, 1] : List ℕ).map (vidAt [5, 7])).Nodup :=
  ⟨by decide, batch_source_ids_nodup [5, 7] 2 [0, 1] [0, 1] (by decide)⟩

/-- C5.  One epoch of `VideoBatchSampler.__iter__`, run on any shuffled
permutation, computes exactly the specification's algorithm (single
left-to-right walk appending an index iff its `source_id` is new to the
current batch, emitting and resetting at size `B`, dropping collisions,
and emitting the non-empty trailing partial batch once at the end,
`samplerSpecRun`); consequently the concatenation of the emitted batches
is a subsequence of the permutation (each index is examined once and a
dropped index never reappears), every batch before the last has exactly
size `B`, and no batch exceeds size `B`. -/
theorem sampler_iter_algorithm (vids : List ℤ) (B : ℕ) (perm : List ℕ) (hB : 0 < B) :
    samplerIter ⟨vids, B⟩ perm = samplerSpecRun ⟨vids, B⟩ perm ∧
    (samplerIter ⟨vids, B⟩ perm).flatten.Sublist perm ∧
    (∀ b ∈ (samplerIter ⟨vids, B⟩ perm).dropLast, b.length = B) ∧
    (∀ b ∈ samplerIter ⟨vids, B⟩ perm, b.length ≤ B) := by
  refine ⟨?_, ?_, ?_, ?_⟩
  · simpa [samplerIter, samplerSpecRun] using
      iterLoop_eq_specFold (vidAt vids) B perm [] [] (∅ : Finset ℤ) (by simp)
  · simpa using iterLoop_flatten_sublist (vidAt vids) B perm [] []
  · exact iterLoop_dropLast_length (vidAt vids) B perm [] []
  · exact iterLoop_length_le (vidAt vids) B hB perm [] [] (by simpa using hB)

/-- Witness for C5 at a concrete sampler run. -/
theorem sampler_iter_algorithm_witness :
    0 < 2 ∧
    (samplerIter ⟨[5, 7, 9], 2⟩ [0, 1, 2] = samplerSpecRun ⟨[5, 7, 9], 2⟩ [0, 1, 2] ∧
      (samplerIter ⟨[5, 7, 9], 2⟩ [0, 1, 2]).flatten.Sublist [0, 1, 2] ∧
      (∀ b ∈ (samplerIter ⟨[5, 7, 9], 2⟩ [0, 1, 2]).dropLast, b.length = 2) ∧
      (∀ b ∈ samplerIter ⟨[5, 7, 9], 2⟩ [0, 1, 2], b.length ≤ 2)) :=
  ⟨by decide, sampler_iter_algorithm [5, 7, 9] 2 [0, 1, 2] (by decide)⟩

/-- C8 (counterexample).  On the corpus with source ids
`[0, 0, 1, 1, 2, 2]` (three ids, two segments each) and `B = 2`, the
identity permutation of `range 6` produces the batches
`[[0, 2], [3, 4], [5]]`: the trailing batch has one sample, refuting the
claim that every emitted batch has exactly 2 samples. -/
theorem small_trailing_batch_exists :
    List.range 6 = [0, 1, 2, 3, 4, 5] ∧
    samplerIter ⟨[0, 0, 1, 1, 2, 2], 2⟩ [0, 1, 2, 3, 4, 5] = [[0, 2], [3, 4], [5]] ∧
    ∃ b ∈ samplerIter ⟨[0, 0, 1, 1, 2, 2], 2⟩ [0, 1, 2, 3, 4, 5], b.length ≠ 2 :=
  ⟨by decide, by decide, by decide⟩

set_option maxRecDepth 20000 in
/-- C8 (amended).  On the corpus with source ids `[0, 0, 1, 1, 2, 2]`
and `B = 2`, for every shuffled permutation of the 6 flat indices: every
emitted batch is non-empty, has at most 2 samples and pairwise distinct
source ids; every batch before the last has exactly 2 samples; and the
total number of indices emitted across the epoch is between 4 and 6.
Checked by exhausting all 720 permutations. -/
theorem sampler_three_sources_bounds (p : List ℕ) (hp : p.Perm (List.range 6)) :
    (∀ b ∈ samplerIter ⟨[0, 0, 1, 1, 2, 2], 2⟩ p,
        b ≠ [] ∧ b.length ≤ 2 ∧ (b.map (vidAt [0, 0, 1, 1, 2, 2])).Nodup) ∧
    (∀ b ∈ (samplerIter ⟨[0, 0, 1, 1, 2, 2], 2⟩ p).dropLast, b.length = 2) ∧
    4 ≤ (samplerIter ⟨[0, 0, 1, 1, 2, 2], 2⟩ p).flatten.length ∧
    (samplerIter ⟨[0, 0, 1, 1, 2, 2], 2⟩ p).flatten.length ≤ 6 := by
  have hmem : p ∈ allPerms (List.range 6) := mem_allPerms_of_perm _ p hp
  have H : ∀ q ∈ allPerms (List.range 6),
      (∀ b ∈ samplerIter ⟨[0, 0, 1, 1, 2, 2], 2⟩ q,
          b ≠ [] ∧ b.length ≤ 2 ∧ (b.map (vidAt [0, 0, 1, 1, 2, 2])).Nodup) ∧
      (∀ b ∈ (samplerIter ⟨[0, 0, 1, 1, 2, 2], 2⟩ q).dropLast, b.length = 2) ∧
      4 ≤ (samplerIter ⟨[0, 0, 1, 1, 2, 2], 2⟩ q).flatten.length ∧
      (samplerIter ⟨[0, 0, 1, 1, 2, 2], 2⟩ q).flatten.length ≤ 6 := by decide
  exact H p hmem

/-- Witness for C8 (amended) at the identity permutation. -/
theorem sampler_three_sources_bounds_witness :
    (([0, 1, 2, 3, 4, 5] : List ℕ).Perm (List.range 6)) ∧
    ((∀ b ∈ samplerIter ⟨[0, 0, 1, 1, 2, 2], 2⟩ [0, 1, 2, 3, 4, 5],
        b ≠ [] ∧ b.length ≤ 2 ∧ (b.map (vidAt [0, 0, 1, 1, 2, 2])).Nodup) ∧
      (∀ b ∈ (samplerIter ⟨[0, 0, 1, 1, 2, 2], 2⟩ [0, 1, 2, 3, 4, 5]).dropLast,
          b.length = 2) ∧
      4 ≤ (samplerIter ⟨[0, 0, 1, 1, 2, 2], 2⟩ [0, 1, 2, 3, 4, 5]).flatten.length ∧
      (samplerIter ⟨[0, 0, 1, 1, 2, 2], 2⟩ [0, 1, 2, 3, 4, 5]).flatten.length ≤ 6) :=
  ⟨by rw [show List.range 6 = [0, 1, 2, 3, 4, 5] from by decide],
    sampler_three_sources_bounds [0, 1, 2, 3, 4, 5]
      (by rw [show List.range 6 = [0, 1, 2, 3, 4, 5] from by decide])⟩

/-- C9.  `VideoBatchSampler.__len__` declares `total_samples //
batch_size` batches for any positive batch size; the last two conjuncts
exhibit a run whose actual number of emitted batches (2) differs from
the declared length (1), so the declaration is independent of the actual
yield count. -/
theorem sampler_declared_length (vids : List ℤ) (B : ℕ) (hB : B ≠ 0) :
    samplerLen ⟨vids, B⟩ = some (vids.length / B) ∧
    samplerLen ⟨[0, 1, 2], 2⟩ = some 1 ∧
    (samplerIter ⟨[0, 1, 2], 2⟩ [0, 1, 2]).length = 2 := by
  refine ⟨?_, by decide, by decide⟩
  simp [samplerLen, hB]

/-- Witness for C9 at batch size 2. -/
theorem sampler_declared_length_witness :
    (2 : ℕ) ≠ 0 ∧
    (samplerLen ⟨[9], 2⟩ = some ([(9 : ℤ)].length / 2) ∧
      samplerLen ⟨[0, 1, 2], 2⟩ = some 1 ∧
      (samplerIter ⟨[0, 1, 2], 2⟩ [0, 1, 2]).length = 2) :=
  ⟨by decide, sampler_declared_length [9] 2 (by decide)⟩

/-- C10.  In every epoch run on a duplicate-free shuffled index order,
every yielded batch is non-empty and no flat index appears twice across
the epoch's batches (the concatenation of all emitted batches is
duplicate-free). -/
theorem sampler_batches_disjoint_nonempty (vids : List ℤ) (B : ℕ) (perm : List ℕ)
    (hperm : perm.Nodup) :
    (samplerIter ⟨vids, B⟩ perm).flatten.Nodup ∧
    ∀ b ∈ samplerIter ⟨vids, B⟩ perm, b ≠ [] := by
  constructor
  · have hsub := iterLoop_flatten_sublist (vidAt vids) B perm [] []
    simp only [List.nil_append] at hsub
    exact hperm.sublist hsub
  · exact iterLoop_ne_nil (vidAt vids) B perm [] []

/-- Witness for C10 at a concrete sampler run. -/
theorem sampler_batches_disjoint_nonempty_witness :
    ([0, 1, 2] : List ℕ).Nodup ∧
    ((samplerIter ⟨[5, 5, 7], 2⟩ [0, 1, 2]).flatten.Nodup ∧
      ∀ b ∈ samplerIter ⟨[5, 5, 7], 2⟩ [0, 1, 2], b ≠ []) :=
  ⟨by decide, sampler_batches_disjoint_nonempty [5, 5, 7] 2 [0, 1, 2] (by decide)⟩

/-! ## Lemmas about the batch assembler -/

/-- A running maximum never drops below its starting value. -/
lemma foldl_max_init_le : ∀ (l : List ℕ) (a : ℕ), a ≤ l.foldl max a := by
  intro l
  induction l with
  | nil => intro a; simp
  | cons y ys ih =>
    intro a
    exact le_trans (Nat.le_max_left a y) (ih (max a y))

/-- Every list element is below the running maximum. -/
lemma le_foldl_max : ∀ (l : List ℕ) (a x : ℕ), x ∈ l → x ≤ l.foldl max a := by
  intro l
  induction l with
  | nil => intro a x hx; simp at hx
  | cons y ys ih =>
    intro a x hx
    rcases List.mem_cons.mp hx with rfl | hx
    · exact le_trans (Nat.le_max_right a x) (foldl_max_init_le ys (max a x))
    · exact ih (max a y) x hx

/-- The running maximum is the starting value or an element of the list. -/
lemma foldl_max_eq_init_or_mem : ∀ (l : List ℕ) (a : ℕ),
    l.foldl max a = a ∨ l.foldl max a ∈ l := by
  intro l
  induction l with
  | nil => intro a; simp
  | cons y ys ih =>
    intro a
    rcases ih (max a y) with h | h
    · rcases max_choice a y with hm | hm
      · left
        simpa [hm] using h
      · right
        rw [List.foldl_cons, h, hm]
        exact List.mem_cons_self y ys
    · right
      exact List.mem_cons_of_mem y h

/-- Padding to at least the waveform's length yields exactly length `n`. -/
lemma padTo_length {n : ℕ} {xs : List ℚ} (h : xs.length ≤ n) :
    (padTo n xs).length = n := by
  simp only [padTo, List.length_append, List.length_replicate]
  omega

/-- Beyond the original waveform, a padded row reads zero. -/
lemma padTo_getD {n : ℕ} {xs : List ℚ} (j : ℕ) (h : xs.length ≤ j) :
    (padTo n xs).getD j 0 = 0 := by
  unfold padTo
  rw [List.getD_append_right _ _ _ _ h]
  rcases Nat.lt_or_ge (j - xs.length) (n - xs.length) with hlt | hge
  · simp [List.getD_eq_getElem?_getD, List.getElem?_replicate, hlt]
  · simp [List.getD_eq_getElem?_getD, List.getElem?_replicate, Nat.not_lt.mpr hge]

/-- A padded row starts with the original waveform unchanged. -/
lemma padTo_take (n : ℕ) (xs : List ℚ) : (padTo n xs).take xs.length = xs := by
  simp [padTo, List.take_left]

/-- C4.  For every non-empty batch handed to `collate_fn`: collation
succeeds; the five output sequences all have the batch's length and are
index-aligned with the input samples; every audio row has length equal
to the maximum audio length present in this batch (an attained maximum,
so batch-local); each row is the original waveform followed by zeros,
hence exactly zero beyond its sample's original length. -/
theorem collate_batch_properties (batch : List Sample) (hb : batch ≠ []) :
    ∃ out, collate_fn batch = some out ∧
      out.frame.length = batch.length ∧
      out.audio.length = batch.length ∧
      out.vid_nums.length = batch.length ∧
      out.segment_nums.length = batch.length ∧
      out.video_paths.length = batch.length ∧
      (∀ s ∈ batch, s.audio.length ≤ maxAudioLen batch) ∧
      (∃ s ∈ batch, s.audio.length = maxAudioLen batch) ∧
      (∀ row ∈ out.audio, row.length = maxAudioLen batch) ∧
      (∀ i : ℕ, ∀ s, batch[i]? = some s →
        out.audio[i]? = some (padTo (maxAudioLen batch) s.audio) ∧
        (∀ j, s.audio.length ≤ j → (padTo (maxAudioLen batch) s.audio).getD j 0 = 0) ∧
        (padTo (maxAudioLen batch) s.audio).take s.audio.length = s.audio ∧
        out.vid_nums[i]? = some s.vid_num ∧
        out.segment_nums[i]? = some s.segment_num ∧
        out.video_paths[i]? = some s.video_path) := by
  have hle : ∀ s ∈ batch, s.audio.length ≤ maxAudioLen batch := by
    intro s hs
    exact le_foldl_max _ 0 _ (List.mem_map.mpr ⟨s, hs, rfl⟩)
  have hmax : ∃ s ∈ batch, s.audio.length = maxAudioLen batch := by
    rcases foldl_max_eq_init_or_mem (batch.map fun s => s.audio.length) 0 with h | h
    · rcases batch with _ | ⟨s0, rest⟩
      · exact absurd rfl hb
      · refine ⟨s0, List.mem_cons_self s0 rest, ?_⟩
        have h0 := hle s0 (List.mem_cons_self s0 rest)
        have : maxAudioLen (s0 :: rest) = 0 := h
        omega
    · obtain ⟨s, hs, hlen⟩ := List.mem_map.mp h
      exact ⟨s, hs, hlen⟩
  rcases batch with _ | ⟨s0, rest⟩
  · exact absurd rfl hb
  refine ⟨_, rfl, by simp [collate_fn], by simp [collate_fn], by simp [collate_fn],
    by simp [collate_fn], by simp [collate_fn], hle, hmax, ?_, ?_⟩
  · intro row hrow
    simp only [collate_fn, List.mem_map] at hrow
    obtain ⟨s, hs, rfl⟩ := hrow
    exact padTo_length (hle s hs)
  · intro i s hi
    have h1 : ((s0 :: rest).map fun it => padTo (maxAudioLen (s0 :: rest)) it.audio)[i]?
        = some (padTo (maxAudioLen (s0 :: rest)) s.audio) := by
      rw [List.getElem?_map, hi]; rfl
    have h2 : ((s0 :: rest).map fun it => it.vid_num)[i]? = some s.vid_num := by
      rw [List.getElem?_map, hi]; rfl
    have h3 : ((s0 :: rest).map fun it => it.segment_num)[i]? = some s.segment_num := by
      rw [List.getElem?_map, hi]; rfl
    have h4 : ((s0 :: rest).map fun it => it.video_path)[i]? = some s.video_path := by
      rw [List.getElem?_map, hi]; rfl
    exact ⟨h1, fun j hj => padTo_getD j hj, padTo_take _ _, h2, h3, h4⟩

/-- Witness for C4 at a concrete two-sample batch. -/
theorem collate_batch_properties_witness :
    ([⟨"a", zeroFrame, [1, 2], 3, 0⟩, ⟨"b", zeroFrame, [5], 7, 1⟩] : List Sample) ≠ [] ∧
    (∃ out,
      collate_fn [⟨"a", zeroFrame, [1, 2], 3, 0⟩, ⟨"b", zeroFrame, [5], 7, 1⟩] = some out ∧
      out.frame.length = ([⟨"a", zeroFrame, [1, 2], 3, 0⟩,
          ⟨"b", zeroFrame, [5], 7, 1⟩] : List Sample).length ∧
      out.audio.length = ([⟨"a", zeroFrame, [1, 2], 3, 0⟩,
          ⟨"b", zeroFrame, [5], 7, 1⟩] : List Sample).length ∧
      out.vid_nums.length = ([⟨"a", zeroFrame, [1, 2], 3, 0⟩,
          ⟨"b", zeroFrame, [5], 7, 1⟩] : List Sample).length ∧
      out.segment_nums.length = ([⟨"a", zeroFrame, [1, 2], 3, 0⟩,
          ⟨"b", zeroFrame, [5], 7, 1⟩] : List Sample).length ∧
      out.video_paths.length = ([⟨"a", zeroFrame, [1, 2], 3, 0⟩,
          ⟨"b", zeroFrame, [5], 7, 1⟩] : List Sample).length ∧
      (∀ s ∈ ([⟨"a", zeroFrame, [1, 2], 3, 0⟩, ⟨"b", zeroFrame, [5], 7, 1⟩] : List Sample),
        s.audio.length ≤ maxAudioLen [⟨"a", zeroFrame, [1, 2], 3, 0⟩,
          ⟨"b", zeroFrame, [5], 7, 1⟩]) ∧
      (∃ s ∈ ([⟨"a", zeroFrame, [1, 2], 3, 0⟩, ⟨"b", zeroFrame, [5], 7, 1⟩] : List Sample),
        s.audio.length = maxAudioLen [⟨"a", zeroFrame, [1, 2], 3, 0⟩,
          ⟨"b", zeroFrame, [5], 7, 1⟩]) ∧
      (∀ row ∈ out.audio, row.length = maxAudioLen [⟨"a", zeroFrame, [1, 2], 3, 0⟩,
          ⟨"b", zeroFrame, [5], 7, 1⟩]) ∧
      (∀ i : ℕ, ∀ s,
        ([⟨"a", zeroFrame, [1, 2], 3, 0⟩, ⟨"b", zeroFrame, [5], 7, 1⟩] : List Sample)[i]?
            = some s →
        out.audio[i]? = some (padTo (maxAudioLen [⟨"a", zeroFrame, [1, 2], 3, 0⟩,
            ⟨"b", zeroFrame, [5], 7, 1⟩]) s.audio) ∧
        (∀ j, s.audio.length ≤ j →
          (padTo (maxAudioLen [⟨"a", zeroFrame, [1, 2], 3, 0⟩,
              ⟨"b", zeroFrame, [5], 7, 1⟩]) s.audio).getD j 0 = 0) ∧
        (padTo (maxAudioLen [⟨"a", zeroFrame, [1, 2], 3, 0⟩,
            ⟨"b", zeroFrame, [5], 7, 1⟩]) s.audio).take s.audio.length = s.audio ∧
        out.vid_nums[i]? = some s.vid_num ∧
        out.segment_nums[i]? = some s.segment_num ∧
        out.video_paths[i]? = some s.video_path)) :=
  ⟨List.cons_ne_nil _ _, collate_batch_properties _ (List.cons_ne_nil _ _)⟩

/-! ## Claims about the decoders, the sample loader and the corpus index -/

/-- C3 (the code evaluated at the failing input).  When `av.open` itself
raises on a path, `extract_audio_from_video` does not return the
zero waveform: its `finally` block evaluates the unbound local
`container` and the call raises `NameError` (after printing the
failure log line).  When the container opens but decoding fails, the
fallback `torch.zeros(16331)` is returned and the container is
closed. -/
theorem audio_open_failure_raises :
    (extract_audio_from_video .openFail "clip.mp4").result = PyResult.exn "NameError" ∧
    (extract_audio_from_video .openFail "clip.mp4").logs = [LogLine.audioFail "clip.mp4"] ∧
    (extract_audio_from_video .decodeFail "clip.mp4").result
        = PyResult.val (List.replicate 16331 0) ∧
    (extract_audio_from_video .decodeFail "clip.mp4").closed = true :=
  ⟨rfl, rfl, rfl, rfl⟩

/-- C6 (the code evaluated at the failing input).  With
`original_fps = 25`, `time_base = 1/12800` and target `chosen_pts =
6400` (0.5 s), on the decoded frame sequence with pts `[6404, 6401]`
the source's scan stops at the first frame (overshoot 4 ticks exceeds
`original_fps/10 = 2.5` ticks) and returns pts 6404, although that
frame overshoots the target by only `4/12800` s, far below one-tenth of
a second; the specification's one-tenth-second rule (1280 ticks) keeps
scanning and returns the strictly closer frame 6401.  The final
conjunct checks the no-frame hard error. -/
theorem frame_scan_overshoot_divergence :
    chooseClosestFrame 25 6400 [6404, 6401] = Except.ok 6404 ∧
    chooseClosestFrameSpecStop (1 / 12800) 6400 [6404, 6401] = Except.ok 6401 ∧
    ((6404 : ℚ) - 6400) * (1 / 12800) < 1 / 10 ∧
    (6401 - 6400 : ℤ).natAbs < (6404 - 6400 : ℤ).natAbs ∧
    chooseClosestFrame 25 6400 [] = Except.error "Failed to find appropriate frame" := by
  refine ⟨?_, ?_, by norm_num, by decide, ?_⟩
  · norm_num [chooseClosestFrame, scanLoop]
  · norm_num [chooseClosestFrameSpecStop, scanLoop]
  · norm_num [chooseClosestFrame, scanLoop]

/-- C2 (counterexample).  An audio decode error after the container
opened (`decodeFail`) with a successful video decode does not produce
the sentinel record: the audio decoder absorbs the error itself and
`__getitem__` builds a normal sample with the real `vid_num` (here 3,
not -1) and the all-zero length-16331 fallback waveform. -/
theorem sample_loader_audio_error_not_sentinel :
    (getitem "p" "3_0" .decodeFail (.ok zeroFrame)).1.vid_num = 3 ∧
    (getitem "p" "3_0" .decodeFail (.ok zeroFrame)).1.vid_num ≠ -1 ∧
    (getitem "p" "3_0" .decodeFail (.ok zeroFrame)).1.audio = List.replicate 16331 0 :=
  ⟨rfl, by decide, rfl⟩

/-- C2 (amended).  Whenever an error actually reaches
`__getitem__`'s `try` block — the video decode raises, or the audio
container fails to open (in which case the audio extractor's `finally`
raises `NameError`) — the sample loader never raises: it returns the
sentinel record (all-zero 3x224x224 frame, all-zero length-16331
waveform, `vid_num = segment_num = -1`, the original path) and prints
an error line naming the failing path. -/
theorem sample_loader_sentinel (path stem : String) (ao : AudioOutcome) (vo : VideoOutcome)
    (h : ao = AudioOutcome.openFail ∨ ∃ m, vo = VideoOutcome.fail m) :
    (getitem path stem ao vo).1.video_frames = zeroFrame ∧
    (getitem path stem ao vo).1.audio = List.replicate 16331 0 ∧
    (getitem path stem ao vo).1.vid_num = -1 ∧
    (getitem path stem ao vo).1.segment_num = -1 ∧
    (getitem path stem ao vo).1.video_path = path ∧
    ∃ m, LogLine.itemError path m ∈ (getitem path stem ao vo).2 := by
  rcases h with rfl | ⟨m, rfl⟩
  · exact ⟨rfl, rfl, rfl, rfl, rfl, "NameError",
      List.mem_append_right _ (List.mem_singleton_self _)⟩
  · rcases ao with _ | _ | frames
    · exact ⟨rfl, rfl, rfl, rfl, rfl, "NameError",
        List.mem_append_right _ (List.mem_singleton_self _)⟩
    · exact ⟨rfl, rfl, rfl, rfl, rfl, m,
        List.mem_append_right _ (List.mem_singleton_self _)⟩
    · rcases frames with _ | ⟨f, fs⟩
      · exact ⟨rfl, rfl, rfl, rfl, rfl, m,
          List.mem_append_right _ (List.mem_singleton_self _)⟩
      · exact ⟨rfl, rfl, rfl, rfl, rfl, m,
          List.mem_append_right _ (List.mem_singleton_self _)⟩

/-- Witness for C2 (amended) at an unopenable container. -/
theorem sample_loader_sentinel_witness :
    (AudioOutcome.openFail = AudioOutcome.openFail ∨
      ∃ m, VideoOutcome.ok zeroFrame = VideoOutcome.fail m) ∧
    ((getitem "p" "3_0" .openFail (.ok zeroFrame)).1.video_frames = zeroFrame ∧
      (getitem "p" "3_0" .openFail (.ok zeroFrame)).1.audio = List.replicate 16331 0 ∧
      (getitem "p" "3_0" .openFail (.ok zeroFrame)).1.vid_num = -1 ∧
      (getitem "p" "3_0" .openFail (.ok zeroFrame)).1.segment_num = -1 ∧
      (getitem "p" "3_0" .openFail (.ok zeroFrame)).1.video_path = "p" ∧
      ∃ m, LogLine.itemError "p" m ∈ (getitem "p" "3_0" .openFail (.ok zeroFrame)).2) :=
  ⟨Or.inl rfl, sample_loader_sentinel "p" "3_0" .openFail (.ok zeroFrame) (Or.inl rfl)⟩

/-- A file whose stem does not parse makes the whole corpus parse fail
with that stem's error, whatever the other files are. -/
lemma corpusVidNums_error_of_bad :
    ∀ (l : List String), (∃ s ∈ l, parseVid s = none) →
      ∃ msg, corpusVidNums l = Except.error msg := by
  intro l
  induction l with
  | nil => intro h; simp at h
  | cons st rest ih =>
    intro h
    rcases h with ⟨s, hs, hnone⟩
    rcases List.mem_cons.mp hs with rfl | hs2
    · exact ⟨s, by simp [corpusVidNums, hnone]⟩
    · rcases hp : parseVid st with _ | v
      · exact ⟨st, by simp [corpusVidNums, hp]⟩
      · obtain ⟨msg, hmsg⟩ := ih ⟨s, hs2, hnone⟩
        exact ⟨msg, by simp [corpusVidNums, hp, hmsg]⟩

/-- When every stem parses, the corpus parse succeeds and keeps every
file (no exclusion). -/
lemma corpusVidNums_ok_of_all_good :
    ∀ (l : List String), (∀ s ∈ l, ∃ v, parseVid s = some v) →
      ∃ vids, corpusVidNums l = Except.ok vids ∧ vids.length = l.length := by
  intro l
  induction l with
  | nil => intro _; exact ⟨[], rfl, rfl⟩
  | cons st rest ih =>
    intro h
    obtain ⟨v, hv⟩ := h st (List.mem_cons_self st rest)
    obtain ⟨vids, hok, hlen⟩ := ih fun s hs => h s (List.mem_cons_of_mem st hs)
    exact ⟨v :: vids, by simp [corpusVidNums, hv, hok], by simp [hlen]⟩

/-- C7 (counterexample).  A corpus containing the parseable stem
`3_0` and the unparseable stem `bad` does not exclude `bad` and
continue: `AudioVisualDataset.__init__` raises on `bad` even though
another file parses. -/
theorem corpus_parse_failure_fatal :
    parseVid "3_0" = some 3 ∧
    datasetInit ["3_0", "bad"] = Except.error "bad" :=
  ⟨by decide, rfl⟩

/-- C7 (amended).  A stem that fails to parse makes corpus
construction raise (fatal) regardless of how many other stems parse —
no file is excluded and construction is never recovered; construction
succeeds exactly when the corpus is non-empty and every stem parses, in
which case all files are kept. -/
theorem corpus_init_parse_behavior (stems : List String) :
    ((∃ s ∈ stems, parseVid s = none) → ∃ msg, datasetInit stems = Except.error msg) ∧
    ((∀ s ∈ stems, ∃ v, parseVid s = some v) → stems ≠ [] →
      ∃ vids, datasetInit stems = Except.ok vids ∧ vids.length = stems.length) := by
  constructor
  · intro h
    obtain ⟨msg, hmsg⟩ := corpusVidNums_error_of_bad stems h
    exact ⟨msg, by simp [datasetInit, hmsg]⟩
  · intro h hne
    obtain ⟨vids, hok, hlen⟩ := corpusVidNums_ok_of_all_good stems h
    refine ⟨vids, ?_, hlen⟩
    have hvne : vids ≠ [] := by
      intro hnil
      apply hne
      have : stems.length = 0 := by simp [hnil] at hlen; omega
      exact List.length_eq_zero.mp this
    simp [datasetInit, hok, hvne]

/-- Witness for C7 (amended): a mixed corpus fails fatally; an
all-parseable corpus keeps both files. -/
theorem corpus_init_parse_behavior_witness :
    (∃ msg, datasetInit ["3_0", "nope"] = Except.error msg) ∧
    (∃ vids, datasetInit ["3_0", "7_1"] = Except.ok vids ∧
      vids.length = (["3_0", "7_1"] : List String).length) := by
  constructor
  · exact (corpus_init_parse_behavior ["3_0", "nope"]).1 ⟨"nope", by decide, by decide⟩
  · refine (corpus_init_parse_behavior ["3_0", "7_1"]).2 ?_ (by decide)
    intro s hs
    rcases List.mem_cons.mp hs with rfl | hs2
    · exact ⟨3, by decide⟩
    · rcases List.mem_cons.mp hs2 with rfl | hs3
      · exact ⟨7, by decide⟩
      · simp at hs3

end AudVis
